import Mathlib

/-!
Shallow embedding of the sparse Merkle tree (SMT) implementation of the
go-merkle repository: the revision holding `Generate(nonEmptyLeaves, totalSize)`,
`RootHash`, `buildInternalOneLevelNodes`, `proofNodeAt` and `GetMerkelProof`
over the `nodesWithoutEmptyLeavesSubTree` array-of-levels representation.

Modelling conventions:
* `[]byte` and `Hash` are lists of naturals.
* A Go `hash.Hash` backend is modelled as a pure function from the bytes
  written into it to the digest returned by `Sum` (`Reset` is implicit in
  purity, and `Write` never fails).  The `leafHash` backend is `none` when the
  Go field is `nil`.
* Runtime panics (out-of-range slice indexing) are modelled by `Option`:
  a `none` result means the Go code panics.
* The extra field `parentHashCount` instruments the number of `parentHash`
  invocations; the repository's tests observe exactly this number through
  their `HashCountDecorator` wrapped around the non-leaf backend.
-/

namespace GoSMT

/-- Go `[]byte`, modelled as a list of naturals. -/
abbrev Bytes : Type := List Nat

/-- Go `type Hash []byte`. -/
abbrev Hash : Type := List Nat

/-- The `SMT` struct of the source file. -/
@[ext]
structure SMT where
  nodesWithoutEmptyLeavesSubTree : List (List Hash)
  leafHash : Option (Bytes → Hash)
  nonLeafHash : Bytes → Hash
  emptyLeafHash : Hash
  levelsUpHashOfEmptyLeaves : List Hash
  treeHeight : Nat
  noOfNonEmptyLeaves : Nat
  parentHashCount : Nat

/-- `func (self *SMT) parentHash(item1, item2 []byte)`: writes `item1` then
`item2` into the non-leaf backend (concatenation) and returns its digest.
The state component bumps the instrumentation counter. -/
def parentHash (s : SMT) (item1 item2 : Hash) : Hash × SMT :=
  (s.nonLeafHash (item1 ++ item2),
   { s with parentHashCount := s.parentHashCount + 1 })

/-- `func emptyLeafHash(h hash.Hash)`: digest of the empty block. -/
def emptyLeafHashOf (f : Bytes → Hash) : Hash := f []

/-- `func newSMT(leafHash, nonLeafHash, emptyLeafHash)`. -/
def newSMT (leafH : Option (Bytes → Hash)) (nonLeafH : Bytes → Hash) (e : Hash) : SMT :=
  { nodesWithoutEmptyLeavesSubTree := []
    leafHash := leafH
    nonLeafHash := nonLeafH
    emptyLeafHash := e
    levelsUpHashOfEmptyLeaves := [e]
    treeHeight := 0
    noOfNonEmptyLeaves := 0
    parentHashCount := 0 }

/-- `func NewSMTWithTwoHashFuncs(leafHash, nonLeafHash hash.Hash)`. -/
def NewSMTWithTwoHashFuncs (leafH nonLeafH : Bytes → Hash) : SMT :=
  newSMT (some leafH) nonLeafH (emptyLeafHashOf leafH)

/-- `func NewSMTWithNonLeafHashAndEmptyLeafHashValue(emptyLeafHash []byte, nonLeafHash hash.Hash)`. -/
def NewSMTWithNonLeafHashAndEmptyLeafHashValue (e : Hash) (nonLeafH : Bytes → Hash) : SMT :=
  newSMT none nonLeafH e

/-- `func (self *SMT) RootHash() []byte`.  The Go function returns a plain
byte slice (it has no error result); `none` models an index-out-of-range
panic. -/
def RootHash (s : SMT) : Option Hash :=
  if s.noOfNonEmptyLeaves = 0 then
    s.levelsUpHashOfEmptyLeaves[s.levelsUpHashOfEmptyLeaves.length - 1]?
  else
    (s.nodesWithoutEmptyLeavesSubTree[s.treeHeight - 1]?).bind fun top => top[0]?

/-- `func (self *SMT) leafHashFunc(leaf []byte)`: pass-through when the leaf
backend is `nil`, otherwise the backend digest of the block. -/
def leafHashFunc (s : SMT) (leaf : Bytes) : Hash :=
  match s.leafHash with
  | none => leaf
  | some f => f leaf

/-- `func (self *SMT) buildLeavesNodes(nonEmptyLeaves [][]byte)`: appends the
level of leaf digests (real leaves only, in input order). -/
def buildLeavesNodes (s : SMT) (nonEmptyLeaves : List Bytes) : SMT :=
  { s with nodesWithoutEmptyLeavesSubTree :=
      s.nodesWithoutEmptyLeavesSubTree ++ [nonEmptyLeaves.map (leafHashFunc s)] }

/-- The `for i := 0; i < counts/2; i++` loop of `buildInternalOneLevelNodes`:
combines `below[2i]` and `below[2i+1]` by `parentHash` for every full pair,
leaving a trailing odd element untouched. -/
def hashPairs (s : SMT) : List Hash → List Hash × SMT
  | a :: b :: rest =>
    let q := parentHash s a b
    let r := hashPairs q.2 rest
    (q.1 :: r.1, r.2)
  | _ => ([], s)

/-- `func (self *SMT) buildInternalOneLevelNodes(levelsNo uint)`: reads the
level below, pairs its nodes, and when the count is odd combines the last
real node with the cached empty-subtree hash of the matching height. -/
def buildInternalOneLevelNodes (s : SMT) (levelsNo : Nat) : Option SMT :=
  (s.nodesWithoutEmptyLeavesSubTree[s.treeHeight - 1 - levelsNo]?).bind
    fun lastLevelNodesHash =>
      let counts := lastLevelNodesHash.length
      let p := hashPairs s lastLevelNodesHash
      if counts % 2 ≠ 0 then
        (p.2.levelsUpHashOfEmptyLeaves[s.treeHeight - 1 - levelsNo]?).bind
          fun siblingEmptyTreeHash =>
            (lastLevelNodesHash[counts - 1]?).bind fun lastReal =>
              let q := parentHash p.2 lastReal siblingEmptyTreeHash
              some { q.2 with nodesWithoutEmptyLeavesSubTree :=
                       q.2.nodesWithoutEmptyLeavesSubTree ++ [p.1 ++ [q.1]] }
      else
        some { p.2 with nodesWithoutEmptyLeavesSubTree :=
                 p.2.nodesWithoutEmptyLeavesSubTree ++ [p.1] }

/-- The `for i := self.treeHeight; i > 1; i--` loop of `buildAllLevelNodes`:
runs `buildInternalOneLevelNodes(i-1)` for `i = treeHeight, ..., 2`. -/
def buildLevelsFrom (s : SMT) : Nat → Option SMT
  | 0 => some s
  | 1 => some s
  | i + 2 =>
    (buildInternalOneLevelNodes s (i + 1)).bind fun s1 => buildLevelsFrom s1 (i + 1)

/-- `func (self *SMT) buildAllLevelNodes(nonEmptyLeaves [][]byte)`. -/
def buildAllLevelNodes (s : SMT) (nonEmptyLeaves : List Bytes) : Option SMT :=
  let s1 := buildLeavesNodes s nonEmptyLeaves
  buildLevelsFrom s1 s1.treeHeight

/-- Fuelled helper for `shiftCount`; the fuel only makes the Go
`for i := n; i > 0; i = i >> 1` loop structurally recursive, and is
irrelevant as soon as it is at least `n` (`shiftLoop_congr`). -/
def shiftLoop : Nat → Nat → Nat
  | _, 0 => 0
  | 0, _ + 1 => 0
  | fuel + 1, n + 1 => shiftLoop fuel ((n + 1) / 2) + 1

/-- Number of binary right shifts needed to reduce `n` to `0`: the loop
computing `maxEmtySubTreeHeight` in `Generate`, and the counting loop of
`logBaseTwo` in the repository's merkle.go. -/
def shiftCount (n : Nat) : Nat := shiftLoop n n

/-- `func isPowerOfTwo(n uint64) bool`: `n != 0 && (n&(n-1)) == 0`. -/
def isPowerOfTwo (n : Nat) : Bool := n != 0 && (n &&& (n - 1)) == 0

/-- `func logBaseTwo(x uint64)`: returns the shift count minus one
(`0` for `x = 0`). -/
def logBaseTwo (x : Nat) : Nat := if x = 0 then 0 else shiftCount x - 1

/-- The chain of self-concatenation digests of the empty leaf: entry `i` is
the root digest of a fully empty subtree with `2^i` leaves (the denotation
of `levelsUpHashOfEmptyLeaves`, the spec's `EmptyChain`). -/
def emptyChainVal (nl : Bytes → Hash) (e : Hash) : Nat → Hash
  | 0 => e
  | i + 1 => nl (emptyChainVal nl e i ++ emptyChainVal nl e i)

/-- The `for i := 1; i < maxHeight; i++` loop of
`computeEmptyLeavesSubTreeHash`: repeatedly parent-hashes the running hash
with itself and appends it to `levelsUpHashOfEmptyLeaves`. -/
def extendEmptyChain (s : SMT) (lastLevelHash : Hash) : Nat → SMT
  | 0 => s
  | steps + 1 =>
    let q := parentHash s lastLevelHash lastLevelHash
    extendEmptyChain
      { q.2 with levelsUpHashOfEmptyLeaves := q.2.levelsUpHashOfEmptyLeaves ++ [q.1] }
      q.1 steps

/-- `func (self *SMT) computeEmptyLeavesSubTreeHash(maxHeight int)`. -/
def computeEmptyLeavesSubTreeHash (s : SMT) (maxHeight : Nat) : SMT :=
  extendEmptyChain s s.emptyLeafHash (maxHeight - 1)

/-- The two error values returned by `Generate` (`errors.New` with distinct
messages). -/
inductive GenError
  /-- "Leaves number of SMT tree should be power of 2" -/
  | InvalidSize
  /-- "NonEmptyLeaves is bigger than totalSize " -/
  | LeafOverflow
deriving DecidableEq

/-- `func (self *SMT) Generate(nonEmptyLeaves [][]byte, totalSize uint64)`.
The result pairs the returned error (if any) with the state of the receiver
after the call; `none` models a runtime panic during the build. -/
def Generate (s : SMT) (nonEmptyLeaves : List Bytes) (totalSize : Nat) :
    Option (Option GenError × SMT) :=
  if !isPowerOfTwo totalSize then some (some GenError.InvalidSize, s)
  else if totalSize < nonEmptyLeaves.length then some (some GenError.LeafOverflow, s)
  else
    let s1 := { s with treeHeight := logBaseTwo totalSize + 1
                       noOfNonEmptyLeaves := nonEmptyLeaves.length }
    let noOfEmptyLeaves := totalSize - nonEmptyLeaves.length
    let s2 := computeEmptyLeavesSubTreeHash s1 (shiftCount noOfEmptyLeaves)
    (buildAllLevelNodes s2 nonEmptyLeaves).map fun t => (none, t)

/-- `type ProofNode struct { Hash []byte; Left bool }`. -/
structure ProofNode where
  Hash : Hash
  Left : Bool
deriving DecidableEq

/-- `func (self *SMT) proofNodeAt(index int, level int)`.  `none` models an
index-out-of-range panic (the Go `len(hashes)-1 < index+1` comparison over
`int` is `hashes.length < index + 2` over naturals). -/
def proofNodeAt (s : SMT) (index level : Nat) : Option ProofNode :=
  (s.nodesWithoutEmptyLeavesSubTree[s.treeHeight - level - 1]?).bind fun hashes =>
    if index % 2 = 1 then
      (hashes[index - 1]?).map fun h => { Hash := h, Left := true }
    else
      if hashes.length < index + 2 then
        (s.levelsUpHashOfEmptyLeaves[level + 1]?).map fun h => { Hash := h, Left := false }
      else
        (hashes[index + 1]?).map fun h => { Hash := h, Left := false }

/-- The `for i := level; i > 0; i--` loop of `GetMerkelProof`: appends the
proof node at each level and halves the running index. -/
def getProofLoop (s : SMT) : Nat → Nat → List ProofNode → Option (List ProofNode)
  | _, 0, acc => some acc
  | index, i + 1, acc =>
    (proofNodeAt s index (i + 1)).bind fun pn => getProofLoop s (index / 2) i (acc ++ [pn])

/-- `func (self *SMT) GetMerkelProof(leafNo uint) []ProofNode`. -/
def GetMerkelProof (s : SMT) (leafNo : Nat) : Option (List ProofNode) :=
  getProofLoop s leafNo (s.treeHeight - 1) []

/-- `func (self *SMT) isEmptyLeaf(item []byte)`. -/
def isEmptyLeaf (s : SMT) (item : Bytes) : Bool :=
  match s.leafHash with
  | none => item == s.emptyLeafHash
  | some _ => item == ([] : Bytes)

/-- Concrete injective leaf backend used for witnesses. -/
def f0 : Bytes → Hash := fun b => 0 :: b

/-- Concrete injective non-leaf backend used for witnesses. -/
def nl0 : Bytes → Hash := fun b => 1 :: b

/-- A fresh (unfilled) tree over the concrete backends. -/
def s0 : SMT := NewSMTWithTwoHashFuncs f0 nl0

/-- The tree produced by `Generate(s0, [[5],[6]], 2)`: two real leaves,
`totalSize = 2`. -/
def exT1 : SMT :=
  { nodesWithoutEmptyLeavesSubTree := [[[0, 5], [0, 6]], [[1, 0, 5, 0, 6]]]
    leafHash := some f0
    nonLeafHash := nl0
    emptyLeafHash := [0]
    levelsUpHashOfEmptyLeaves := [[0]]
    treeHeight := 2
    noOfNonEmptyLeaves := 2
    parentHashCount := 1 }

/-- The tree produced by calling `Generate([[5],[6]], 2)` a second time on
`exT1`: the already built levels get two further levels appended. -/
def exT2 : SMT :=
  { exT1 with
    nodesWithoutEmptyLeavesSubTree :=
      exT1.nodesWithoutEmptyLeavesSubTree ++ [[[0, 5], [0, 6]], [[1, 0, 5, 0, 6]]]
    parentHashCount := 2 }

/-- The tree produced by `Generate(s0, [[5]], 4)`: one real leaf,
`totalSize = 4`. -/
def exTree4 : SMT :=
  { nodesWithoutEmptyLeavesSubTree :=
      [[[0, 5]], [[1, 0, 5, 0]], [[1, 1, 0, 5, 0, 1, 0, 0]]]
    leafHash := some f0
    nonLeafHash := nl0
    emptyLeafHash := [0]
    levelsUpHashOfEmptyLeaves := [[0], [1, 0, 0]]
    treeHeight := 3
    noOfNonEmptyLeaves := 1
    parentHashCount := 3 }

/-- The tree produced by `Generate(s0, [[5]], 8)`: one real leaf,
`totalSize = 8`. -/
def exTree8 : SMT :=
  { nodesWithoutEmptyLeavesSubTree :=
      [[[0, 5]], [[1, 0, 5, 0]], [[1, 1, 0, 5, 0, 1, 0, 0]],
       [[1, 1, 1, 0, 5, 0, 1, 0, 0, 1, 1, 0, 0, 1, 0, 0]]]
    leafHash := some f0
    nonLeafHash := nl0
    emptyLeafHash := [0]
    levelsUpHashOfEmptyLeaves := [[0], [1, 0, 0], [1, 1, 0, 0, 1, 0, 0]]
    treeHeight := 4
    noOfNonEmptyLeaves := 1
    parentHashCount := 5 }

/-- The tree produced by `Generate(s0, [], 2)`: zero real leaves,
`totalSize = 2`. -/
def exTreeEmpty : SMT :=
  { nodesWithoutEmptyLeavesSubTree := [[], []]
    leafHash := some f0
    nonLeafHash := nl0
    emptyLeafHash := [0]
    levelsUpHashOfEmptyLeaves := [[0], [1, 0, 0]]
    treeHeight := 2
    noOfNonEmptyLeaves := 0
    parentHashCount := 1 }

/-- A concrete filled state with a three-node level, used to witness the
one-level construction rule. -/
def sW : SMT :=
  { nodesWithoutEmptyLeavesSubTree := [[[5], [6], [7]]]
    leafHash := some f0
    nonLeafHash := nl0
    emptyLeafHash := [0]
    levelsUpHashOfEmptyLeaves := [[0]]
    treeHeight := 2
    noOfNonEmptyLeaves := 3
    parentHashCount := 0 }

theorem parentHash_fst (s : SMT) (a b : Hash) :
    (parentHash s a b).1 = s.nonLeafHash (a ++ b) := rfl

theorem parentHash_snd (s : SMT) (a b : Hash) :
    (parentHash s a b).2 = { s with parentHashCount := s.parentHashCount + 1 } := rfl

theorem hashPairs_snd : (l : List Hash) → ∀ s : SMT,
    (hashPairs s l).2 = { s with parentHashCount := s.parentHashCount + l.length / 2 }
  | [] => fun s => by simp [hashPairs]
  | [a] => fun s => by simp [hashPairs]
  | a :: b :: rest => fun s => by
    show (hashPairs (parentHash s a b).2 rest).2 = _
    rw [hashPairs_snd rest (parentHash s a b).2]
    ext <;> simp [parentHash] <;> omega

theorem hashPairs_length : (l : List Hash) → ∀ s : SMT,
    (hashPairs s l).1.length = l.length / 2
  | [] => fun s => by simp [hashPairs]
  | [a] => fun s => by simp [hashPairs]
  | a :: b :: rest => fun s => by
    have ih := hashPairs_length rest (parentHash s a b).2
    simp only [hashPairs, List.length_cons, ih]
    omega

theorem hashPairs_get : (l : List Hash) → ∀ (s : SMT) (i : Nat) (a b : Hash),
    l[2 * i]? = some a → l[2 * i + 1]? = some b →
    (hashPairs s l).1[i]? = some (s.nonLeafHash (a ++ b))
  | [] => by intro s i a b h1 h2; simp at h1
  | [x] => by
    intro s i a b h1 h2
    have hlt := (List.getElem?_eq_some_iff.mp h2).1
    simp only [List.length_singleton] at hlt
    omega
  | x :: y :: rest => by
    intro s i a b h1 h2
    match i with
    | 0 =>
      simp only [Nat.mul_zero, List.getElem?_cons_zero, Nat.zero_add,
        List.getElem?_cons_succ, Option.some_inj] at h1 h2
      subst h1; subst h2
      simp [hashPairs, parentHash]
    | i + 1 =>
      have e1 : 2 * (i + 1) = 2 * i + 1 + 1 := by ring
      have e2 : 2 * (i + 1) + 1 = 2 * i + 1 + 1 + 1 := by ring
      rw [e1, List.getElem?_cons_succ, List.getElem?_cons_succ] at h1
      rw [e2, List.getElem?_cons_succ, List.getElem?_cons_succ] at h2
      have ih := hashPairs_get rest (parentHash s x y).2 i a b h1 h2
      simpa [hashPairs, parentHash] using ih

theorem shiftLoop_congr (n : Nat) :
    ∀ f1 f2, n ≤ f1 → n ≤ f2 → shiftLoop f1 n = shiftLoop f2 n := by
  induction n using Nat.strong_induction_on with
  | _ n ih =>
    intro f1 f2 h1 h2
    cases n with
    | zero => cases f1 <;> cases f2 <;> simp [shiftLoop]
    | succ m =>
      cases f1 with
      | zero => omega
      | succ g1 =>
        cases f2 with
        | zero => omega
        | succ g2 =>
          simp only [shiftLoop]
          rw [ih ((m + 1) / 2) (by omega) g1 g2 (by omega) (by omega)]

theorem shiftCount_of_ne_zero (n : Nat) (h : n ≠ 0) :
    shiftCount n = shiftCount (n / 2) + 1 := by
  cases n with
  | zero => exact absurd rfl h
  | succ m =>
    show shiftLoop (m + 1) (m + 1) = shiftLoop ((m + 1) / 2) ((m + 1) / 2) + 1
    simp only [shiftLoop]
    rw [shiftLoop_congr ((m + 1) / 2) m ((m + 1) / 2) (by omega) (by omega)]

theorem shiftCount_pos (n : Nat) (h : n ≠ 0) : 1 ≤ shiftCount n := by
  rw [shiftCount_of_ne_zero n h]; omega

theorem shiftCount_two_pow (k : Nat) : shiftCount (2 ^ k) = k + 1 := by
  induction k with
  | zero => rfl
  | succ k ih =>
    rw [shiftCount_of_ne_zero _ (by positivity)]
    have : 2 ^ (k + 1) / 2 = 2 ^ k := by
      rw [Nat.pow_succ, Nat.mul_div_cancel _ (by omega)]
    rw [this, ih]

theorem logBaseTwo_two_pow (k : Nat) : logBaseTwo (2 ^ k) = k := by
  rw [logBaseTwo, if_neg (by positivity), shiftCount_two_pow]
  omega

theorem isPowerOfTwo_two_pow (k : Nat) : isPowerOfTwo (2 ^ k) = true := by
  have hand : (2 ^ k &&& (2 ^ k - 1)) = 0 := by
    apply Nat.eq_of_testBit_eq
    intro i
    simp only [Nat.testBit_land, Nat.testBit_two_pow_sub_one, Nat.zero_testBit,
      Nat.testBit_two_pow]
    simp only [Bool.and_eq_false_iff, decide_eq_false_iff_not]
    omega
  have h2 : (2 : Nat) ^ k ≠ 0 := by positivity
  simp [isPowerOfTwo, hand, h2]

theorem isPowerOfTwo_ne_zero (n : Nat) (h : isPowerOfTwo n = true) : n ≠ 0 := by
  simp [isPowerOfTwo] at h
  exact h.1

theorem emptyChainVal_shift (nl : Bytes → Hash) (x : Hash) : (m : Nat) →
    emptyChainVal nl (nl (x ++ x)) m = emptyChainVal nl x (m + 1)
  | 0 => rfl
  | m + 1 => by
    show nl (emptyChainVal nl (nl (x ++ x)) m ++ emptyChainVal nl (nl (x ++ x)) m) = _
    rw [emptyChainVal_shift nl x m]
    rfl

theorem emptyChainVal_shift' (nl : Bytes → Hash) (x : Hash) (m : Nat) :
    emptyChainVal nl (emptyChainVal nl x 1) m = emptyChainVal nl x (m + 1) :=
  emptyChainVal_shift nl x m

theorem map_range_succ_head {α : Type} (g : Nat → α) (steps : Nat) :
    (List.range (steps + 1)).map g = g 0 :: (List.range steps).map (fun j => g (j + 1)) := by
  rw [List.range_succ_eq_map, List.map_cons, List.map_map]
  rfl

theorem extendEmptyChain_succ (s : SMT) (lastH : Hash) (steps : Nat) :
    extendEmptyChain s lastH (steps + 1) =
      extendEmptyChain
        { s with
          levelsUpHashOfEmptyLeaves :=
            s.levelsUpHashOfEmptyLeaves ++ [emptyChainVal s.nonLeafHash lastH 1]
          parentHashCount := s.parentHashCount + 1 }
        (emptyChainVal s.nonLeafHash lastH 1) steps := rfl

theorem extendEmptyChain_spec : (steps : Nat) → ∀ (s : SMT) (lastH : Hash),
    extendEmptyChain s lastH steps =
      { s with
        levelsUpHashOfEmptyLeaves := s.levelsUpHashOfEmptyLeaves ++
          (List.range steps).map (fun j => emptyChainVal s.nonLeafHash lastH (j + 1))
        parentHashCount := s.parentHashCount + steps }
  | 0 => fun s lastH => by ext <;> simp [extendEmptyChain]
  | steps + 1 => fun s lastH => by
    rw [extendEmptyChain_succ]
    have ih := extendEmptyChain_spec steps
      { s with
        levelsUpHashOfEmptyLeaves :=
          s.levelsUpHashOfEmptyLeaves ++ [emptyChainVal s.nonLeafHash lastH 1]
        parentHashCount := s.parentHashCount + 1 }
      (emptyChainVal s.nonLeafHash lastH 1)
    dsimp only at ih
    simp only [emptyChainVal_shift'] at ih
    rw [ih]
    ext
    case nodesWithoutEmptyLeavesSubTree => rfl
    case leafHash => rfl
    case nonLeafHash => rfl
    case emptyLeafHash => rfl
    case treeHeight => rfl
    case noOfNonEmptyLeaves => rfl
    case parentHashCount => dsimp only; omega
    case levelsUpHashOfEmptyLeaves =>
      dsimp only
      simp [map_range_succ_head]

theorem buildOneLevel_forward (s : SMT) (levelsNo : Nat) (below : List Hash) (ec : Hash)
    (hbelow : s.nodesWithoutEmptyLeavesSubTree[s.treeHeight - 1 - levelsNo]? = some below)
    (hec : below.length % 2 = 1 →
      s.levelsUpHashOfEmptyLeaves[s.treeHeight - 1 - levelsNo]? = some ec) :
    ∃ t lv, buildInternalOneLevelNodes s levelsNo = some t ∧
      t.nodesWithoutEmptyLeavesSubTree = s.nodesWithoutEmptyLeavesSubTree ++ [lv] ∧
      lv.length = (below.length + 1) / 2 ∧
      (∀ i a b, below[2 * i]? = some a → below[2 * i + 1]? = some b →
        lv[i]? = some (s.nonLeafHash (a ++ b))) ∧
      (below.length % 2 = 1 →
        ∀ lastReal, below[below.length - 1]? = some lastReal →
          lv[below.length / 2]? = some (s.nonLeafHash (lastReal ++ ec))) := by
  have hsnd := hashPairs_snd below s
  have hlen := hashPairs_length below s
  have hnodes : (hashPairs s below).2.nodesWithoutEmptyLeavesSubTree =
      s.nodesWithoutEmptyLeavesSubTree := by rw [hsnd]
  have hnl : (hashPairs s below).2.nonLeafHash = s.nonLeafHash := by rw [hsnd]
  have hchain2 : (hashPairs s below).2.levelsUpHashOfEmptyLeaves =
      s.levelsUpHashOfEmptyLeaves := by rw [hsnd]
  unfold buildInternalOneLevelNodes
  rw [hbelow]
  simp only [Option.some_bind]
  by_cases hodd : below.length % 2 = 0
  · rw [if_neg (by omega : ¬ below.length % 2 ≠ 0)]
    refine ⟨_, (hashPairs s below).1, rfl, ?_, ?_, ?_, ?_⟩
    · dsimp only
      rw [hnodes]
    · rw [hlen]; omega
    · intro i a b h1 h2
      exact hashPairs_get below s i a b h1 h2
    · intro hcontra; omega
  · have hlt : below.length - 1 < below.length := by omega
    have hlast := List.getElem?_eq_getElem hlt
    rw [if_pos (by omega : below.length % 2 ≠ 0), hchain2, hec (by omega), hlast]
    simp only [Option.some_bind]
    refine ⟨_, (hashPairs s below).1 ++
        [s.nonLeafHash (below[below.length - 1] ++ ec)], rfl, ?_, ?_, ?_, ?_⟩
    · dsimp only [parentHash]
      rw [hnodes, hnl]
    · simp only [List.length_append, List.length_singleton, hlen]; omega
    · intro i a b h1 h2
      have hi : i < (hashPairs s below).1.length := by
        rw [hlen]
        have := (List.getElem?_eq_some_iff.mp h2).1
        omega
      rw [List.getElem?_append_left hi]
      exact hashPairs_get below s i a b h1 h2
    · intro _ lastReal hlr
      have hv : lastReal = below[below.length - 1] := by
        injection hlr with h2
        exact h2.symm
      subst hv
      rw [show below.length / 2 = (hashPairs s below).1.length from hlen.symm]
      exact List.getElem?_concat_length _ _

theorem buildOneLevel_inv (s : SMT) (levelsNo : Nat) (t : SMT)
    (h : buildInternalOneLevelNodes s levelsNo = some t) :
    ∃ below lv,
      s.nodesWithoutEmptyLeavesSubTree[s.treeHeight - 1 - levelsNo]? = some below ∧
      t.nodesWithoutEmptyLeavesSubTree = s.nodesWithoutEmptyLeavesSubTree ++ [lv] ∧
      lv.length = (below.length + 1) / 2 ∧
      t.leafHash = s.leafHash ∧ t.nonLeafHash = s.nonLeafHash ∧
      t.emptyLeafHash = s.emptyLeafHash ∧
      t.levelsUpHashOfEmptyLeaves = s.levelsUpHashOfEmptyLeaves ∧
      t.treeHeight = s.treeHeight ∧ t.noOfNonEmptyLeaves = s.noOfNonEmptyLeaves ∧
      t.parentHashCount = s.parentHashCount + (below.length + 1) / 2 := by
  unfold buildInternalOneLevelNodes at h
  cases hb : s.nodesWithoutEmptyLeavesSubTree[s.treeHeight - 1 - levelsNo]? with
  | none => rw [hb] at h; exact absurd h (by simp)
  | some below =>
    rw [hb] at h
    simp only [Option.some_bind] at h
    have hsnd := hashPairs_snd below s
    have hlen := hashPairs_length below s
    by_cases hodd : below.length % 2 = 0
    · rw [if_neg (by omega : ¬ below.length % 2 ≠ 0)] at h
      injection h with ht2
      refine ⟨below, (hashPairs s below).1, rfl, ?_⟩
      rw [← ht2, hsnd]
      refine ⟨rfl, by rw [hlen]; omega, rfl, rfl, rfl, rfl, rfl, rfl, by dsimp only; omega⟩
    · rw [if_pos (by omega : below.length % 2 ≠ 0)] at h
      cases hc : (hashPairs s below).2.levelsUpHashOfEmptyLeaves[s.treeHeight - 1 - levelsNo]? with
      | none => rw [hc] at h; exact absurd h (by simp)
      | some ec =>
        cases hl : below[below.length - 1]? with
        | none => rw [hc, hl] at h; exact absurd h (by simp)
        | some lastReal =>
          rw [hc, hl] at h
          simp only [Option.some_bind] at h
          injection h with ht2
          refine ⟨below, (hashPairs s below).1 ++
            [(hashPairs s below).2.nonLeafHash (lastReal ++ ec)], rfl, ?_⟩
          rw [← ht2]
          dsimp only [parentHash]
          rw [hsnd]

          refine ⟨rfl, ?_, rfl, rfl, rfl, rfl, rfl, rfl, by dsimp only; omega⟩
          simp only [List.length_append, List.length_singleton, hlen]; omega

theorem buildOneLevel_nil (s : SMT) (levelsNo : Nat)
    (hbelow : s.nodesWithoutEmptyLeavesSubTree[s.treeHeight - 1 - levelsNo]? = some []) :
    buildInternalOneLevelNodes s levelsNo =
      some { s with nodesWithoutEmptyLeavesSubTree :=
               s.nodesWithoutEmptyLeavesSubTree ++ [[]] } := by
  unfold buildInternalOneLevelNodes
  rw [hbelow]
  simp [hashPairs]

theorem buildLevelsFrom_inv : (i : Nat) → ∀ (s t : SMT), buildLevelsFrom s i = some t →
    t.leafHash = s.leafHash ∧ t.nonLeafHash = s.nonLeafHash ∧
    t.emptyLeafHash = s.emptyLeafHash ∧
    t.levelsUpHashOfEmptyLeaves = s.levelsUpHashOfEmptyLeaves ∧
    t.treeHeight = s.treeHeight ∧ t.noOfNonEmptyLeaves = s.noOfNonEmptyLeaves ∧
    t.nodesWithoutEmptyLeavesSubTree.length =
      s.nodesWithoutEmptyLeavesSubTree.length + (i - 1)
  | 0 => fun s t h => by
    have ht : t = s := by
      have : some s = some t := h
      injection this with h2
      exact h2.symm
    subst ht
    exact ⟨rfl, rfl, rfl, rfl, rfl, rfl, by omega⟩
  | 1 => fun s t h => by
    have ht : t = s := by
      have : some s = some t := h
      injection this with h2
      exact h2.symm
    subst ht
    exact ⟨rfl, rfl, rfl, rfl, rfl, rfl, by omega⟩
  | i + 2 => fun s t h => by
    have h' : (buildInternalOneLevelNodes s (i + 1)).bind
        (fun s1 => buildLevelsFrom s1 (i + 1)) = some t := h
    cases hbi : buildInternalOneLevelNodes s (i + 1) with
    | none => rw [hbi] at h'; exact absurd h' (by simp)
    | some s1 =>
      rw [hbi] at h'
      simp only [Option.some_bind] at h'
      obtain ⟨below, lv, _, hnodes1, _, hlf, hnl, helh, hch, hth, hno, _⟩ :=
        buildOneLevel_inv s (i + 1) s1 hbi
      obtain ⟨ilf, inl, ielh, ich, ith, ino, ilen⟩ := buildLevelsFrom_inv (i + 1) s1 t h'
      refine ⟨ilf.trans hlf, inl.trans hnl, ielh.trans helh, ich.trans hch,
        ith.trans hth, ino.trans hno, ?_⟩
      rw [ilen, hnodes1]
      simp only [List.length_append, List.length_singleton]
      omega

theorem buildLevelsFrom_shape : (i : Nat) → ∀ (s t : SMT), buildLevelsFrom s i = some t →
    1 ≤ i → i ≤ s.treeHeight →
    s.nodesWithoutEmptyLeavesSubTree.length + i = s.treeHeight + 1 →
    (∃ lv, s.nodesWithoutEmptyLeavesSubTree.getLast? = some lv ∧ 1 ≤ lv.length) →
    t.nodesWithoutEmptyLeavesSubTree.length = s.treeHeight ∧
    (∃ lv, t.nodesWithoutEmptyLeavesSubTree.getLast? = some lv ∧ 1 ≤ lv.length)
  | 0 => fun s t h h1 => by omega
  | 1 => fun s t h h1 h2 h3 h4 => by
    have ht : t = s := by
      have : some s = some t := h
      injection this with h5
      exact h5.symm
    subst ht
    exact ⟨by omega, h4⟩
  | i + 2 => fun s t h h1 h2 h3 h4 => by
    have h' : (buildInternalOneLevelNodes s (i + 1)).bind
        (fun s1 => buildLevelsFrom s1 (i + 1)) = some t := h
    cases hbi : buildInternalOneLevelNodes s (i + 1) with
    | none => rw [hbi] at h'; exact absurd h' (by simp)
    | some s1 =>
      rw [hbi] at h'
      simp only [Option.some_bind] at h'
      obtain ⟨below, lv, hread, hnodes1, hlvlen, _, _, _, _, hth, _, _⟩ :=
        buildOneLevel_inv s (i + 1) s1 hbi
      obtain ⟨lvOld, hlast, hlvOld⟩ := h4
      have hbelowOld : below = lvOld := by
        rw [List.getLast?_eq_getElem?] at hlast
        have e : s.treeHeight - 1 - (i + 1) =
            s.nodesWithoutEmptyLeavesSubTree.length - 1 := by omega
        rw [e] at hread
        rw [hread] at hlast
        injection hlast with h5
      have hstep := buildLevelsFrom_shape (i + 1) s1 t h' (by omega)
        (by rw [hth]; omega)
        (by rw [hth, hnodes1]; simp only [List.length_append, List.length_singleton]; omega)
        (by
          refine ⟨lv, ?_, ?_⟩
          · rw [hnodes1]
            exact List.getLast?_concat _
          · rw [hlvlen, hbelowOld]; omega)
      rw [hth] at hstep
      exact hstep

theorem buildLevelsFrom_allEmpty : (i : Nat) → ∀ (s : SMT) (r : Nat),
    s.nodesWithoutEmptyLeavesSubTree = List.replicate r [] → 1 ≤ r → 1 ≤ i →
    i ≤ s.treeHeight → r + i = s.treeHeight + 1 →
    buildLevelsFrom s i =
      some { s with nodesWithoutEmptyLeavesSubTree := List.replicate s.treeHeight [] }
  | 0 => fun s r hnodes hr hi => by omega
  | 1 => fun s r hnodes hr hi hile hsum => by
    show some s = _
    have e : List.replicate s.treeHeight ([] : List Hash) =
        s.nodesWithoutEmptyLeavesSubTree := by
      rw [hnodes]
      congr 1
      omega
    rw [e]
  | i + 2 => fun s r hnodes hr hi hile hsum => by
    have hidx : s.treeHeight - 1 - (i + 1) = r - 1 := by omega
    have hread : s.nodesWithoutEmptyLeavesSubTree[s.treeHeight - 1 - (i + 1)]? =
        some [] := by
      rw [hnodes, hidx, List.getElem?_replicate, if_pos (by omega : r - 1 < r)]
    show (buildInternalOneLevelNodes s (i + 1)).bind
        (fun s1 => buildLevelsFrom s1 (i + 1)) = _
    rw [buildOneLevel_nil s (i + 1) hread]
    simp only [Option.some_bind]
    exact buildLevelsFrom_allEmpty (i + 1)
      { s with nodesWithoutEmptyLeavesSubTree := s.nodesWithoutEmptyLeavesSubTree ++ [[]] }
      (r + 1)
      (by dsimp only; rw [hnodes, ← List.replicate_succ'])
      (by omega) (by omega) (by dsimp only; omega) (by dsimp only; omega)

theorem generate_success_inv (s : SMT) (l : List Bytes) (n : Nat) (t : SMT)
    (h : Generate s l n = some (none, t)) :
    isPowerOfTwo n = true ∧ l.length ≤ n ∧
    buildAllLevelNodes
      (computeEmptyLeavesSubTreeHash
        { s with treeHeight := logBaseTwo n + 1, noOfNonEmptyLeaves := l.length }
        (shiftCount (n - l.length))) l = some t := by
  unfold Generate at h
  by_cases h1 : isPowerOfTwo n = true
  · rw [if_neg (by simp [h1])] at h
    by_cases h2 : n < l.length
    · rw [if_pos h2] at h
      exact absurd h (by simp)
    · rw [if_neg h2] at h
      refine ⟨h1, by omega, ?_⟩
      have h' : (buildAllLevelNodes
          (computeEmptyLeavesSubTreeHash
            { s with treeHeight := logBaseTwo n + 1, noOfNonEmptyLeaves := l.length }
            (shiftCount (n - l.length))) l).map (fun u => (none, u)) =
          some ((none : Option GenError), t) := h
      cases hb : buildAllLevelNodes
          (computeEmptyLeavesSubTreeHash
            { s with treeHeight := logBaseTwo n + 1, noOfNonEmptyLeaves := l.length }
            (shiftCount (n - l.length))) l with
      | none =>
        rw [hb] at h'
        exact absurd h' (by simp)
      | some t' =>
        rw [hb] at h'
        simp only [Option.map_some'] at h'
        injection h' with h3
        rw [(Prod.mk.injEq _ _ _ _).mp h3 |>.2]
  · rw [if_pos (by simp [h1])] at h
    exact absurd h (by simp)

theorem chain_closed_form (nl : Bytes → Hash) (e : Hash) (m : Nat) :
    [e] ++ (List.range (m - 1)).map (fun j => emptyChainVal nl e (j + 1)) =
      (List.range (max m 1)).map (emptyChainVal nl e) := by
  cases m with
  | zero => simp [emptyChainVal, List.range_succ]
  | succ k =>
    rw [show max (k + 1) 1 = k + 1 by omega, map_range_succ_head]
    simp [emptyChainVal]

theorem computeEmptyLeavesSubTreeHash_lit (lh : Option (Bytes → Hash)) (nl : Bytes → Hash)
    (e : Hash) (T N m : Nat) :
    computeEmptyLeavesSubTreeHash
      { nodesWithoutEmptyLeavesSubTree := [], leafHash := lh, nonLeafHash := nl,
        emptyLeafHash := e, levelsUpHashOfEmptyLeaves := [e], treeHeight := T,
        noOfNonEmptyLeaves := N, parentHashCount := 0 } m =
      { nodesWithoutEmptyLeavesSubTree := [], leafHash := lh, nonLeafHash := nl,
        emptyLeafHash := e,
        levelsUpHashOfEmptyLeaves := (List.range (max m 1)).map (emptyChainVal nl e),
        treeHeight := T, noOfNonEmptyLeaves := N, parentHashCount := m - 1 } := by
  unfold computeEmptyLeavesSubTreeHash
  rw [extendEmptyChain_spec]
  refine SMT.ext rfl rfl rfl rfl ?_ rfl rfl ?_
  · exact chain_closed_form nl e m
  · dsimp only
    omega

theorem generate_fresh_core (lh : Option (Bytes → Hash)) (nl : Bytes → Hash) (e : Hash)
    (l : List Bytes) (n : Nat) (t : SMT)
    (h : Generate (newSMT lh nl e) l n = some (none, t)) :
    isPowerOfTwo n = true ∧ l.length ≤ n ∧
    t.leafHash = lh ∧ t.nonLeafHash = nl ∧ t.emptyLeafHash = e ∧
    t.treeHeight = logBaseTwo n + 1 ∧ t.noOfNonEmptyLeaves = l.length ∧
    t.levelsUpHashOfEmptyLeaves =
      (List.range (max (shiftCount (n - l.length)) 1)).map (emptyChainVal nl e) ∧
    t.nodesWithoutEmptyLeavesSubTree.length = logBaseTwo n + 1 := by
  obtain ⟨hpow, hlen, hba⟩ := generate_success_inv (newSMT lh nl e) l n t h
  have hs1 : ({ newSMT lh nl e with
      treeHeight := logBaseTwo n + 1
      noOfNonEmptyLeaves := l.length } : SMT) =
      { nodesWithoutEmptyLeavesSubTree := [], leafHash := lh, nonLeafHash := nl,
        emptyLeafHash := e, levelsUpHashOfEmptyLeaves := [e],
        treeHeight := logBaseTwo n + 1, noOfNonEmptyLeaves := l.length,
        parentHashCount := 0 } := rfl
  rw [hs1, computeEmptyLeavesSubTreeHash_lit] at hba
  unfold buildAllLevelNodes at hba
  simp only [buildLeavesNodes] at hba
  obtain ⟨ilf, inl, ielh, ich, ith, ino, ilen⟩ := buildLevelsFrom_inv _ _ _ hba
  dsimp only at ilf inl ielh ich ith ino ilen
  refine ⟨hpow, hlen, ilf, inl, ielh, ith, ino, ich, ?_⟩
  rw [ilen]
  simp only [List.nil_append, List.length_singleton]
  omega

theorem generate_empty_eq (lh : Option (Bytes → Hash)) (nl : Bytes → Hash) (e : Hash)
    (k : Nat) :
    Generate (newSMT lh nl e) [] (2 ^ k) =
      some (none,
        { nodesWithoutEmptyLeavesSubTree := List.replicate (k + 1) []
          leafHash := lh, nonLeafHash := nl, emptyLeafHash := e
          levelsUpHashOfEmptyLeaves := (List.range (k + 1)).map (emptyChainVal nl e)
          treeHeight := k + 1, noOfNonEmptyLeaves := 0, parentHashCount := k }) := by
  unfold Generate
  rw [if_neg (by simp [isPowerOfTwo_two_pow]), if_neg (by simp)]
  show (buildAllLevelNodes
      (computeEmptyLeavesSubTreeHash
        { nodesWithoutEmptyLeavesSubTree := [], leafHash := lh, nonLeafHash := nl,
          emptyLeafHash := e, levelsUpHashOfEmptyLeaves := [e],
          treeHeight := logBaseTwo (2 ^ k) + 1, noOfNonEmptyLeaves := 0,
          parentHashCount := 0 } (shiftCount (2 ^ k))) []).map (fun u => (none, u)) = _
  rw [logBaseTwo_two_pow, shiftCount_two_pow, computeEmptyLeavesSubTreeHash_lit]
  rw [show max (k + 1) 1 = k + 1 by omega, show k + 1 - 1 = k by omega]
  unfold buildAllLevelNodes
  simp only [buildLeavesNodes, List.map_nil, List.nil_append]
  rw [buildLevelsFrom_allEmpty (k + 1)
    { nodesWithoutEmptyLeavesSubTree := [[]], leafHash := lh, nonLeafHash := nl,
      emptyLeafHash := e,
      levelsUpHashOfEmptyLeaves := (List.range (k + 1)).map (emptyChainVal nl e),
      treeHeight := k + 1, noOfNonEmptyLeaves := 0, parentHashCount := k } 1
    rfl (by omega) (by omega) (by dsimp only; omega) (by dsimp only; omega)]
  rfl

theorem generate_fresh_top (lh : Option (Bytes → Hash)) (nl : Bytes → Hash) (e : Hash)
    (l : List Bytes) (n : Nat) (t : SMT)
    (h : Generate (newSMT lh nl e) l n = some (none, t)) (hne : l ≠ []) :
    t.nodesWithoutEmptyLeavesSubTree.length = t.treeHeight ∧
    ∃ top, t.nodesWithoutEmptyLeavesSubTree.getLast? = some top ∧ 1 ≤ top.length := by
  obtain ⟨hpow, hlen, hba⟩ := generate_success_inv (newSMT lh nl e) l n t h
  have hs1 : ({ newSMT lh nl e with
      treeHeight := logBaseTwo n + 1
      noOfNonEmptyLeaves := l.length } : SMT) =
      { nodesWithoutEmptyLeavesSubTree := [], leafHash := lh, nonLeafHash := nl,
        emptyLeafHash := e, levelsUpHashOfEmptyLeaves := [e],
        treeHeight := logBaseTwo n + 1, noOfNonEmptyLeaves := l.length,
        parentHashCount := 0 } := rfl
  rw [hs1, computeEmptyLeavesSubTreeHash_lit] at hba
  unfold buildAllLevelNodes at hba
  simp only [buildLeavesNodes, List.nil_append] at hba
  have hth := (buildLevelsFrom_inv _ _ _ hba).2.2.2.2.1
  dsimp only at hth hba
  have hshape := buildLevelsFrom_shape _ _ _ hba (by omega) (by dsimp only; omega)
    (by dsimp only; simp only [List.length_singleton]; omega)
    (by
      refine ⟨l.map (leafHashFunc
        { nodesWithoutEmptyLeavesSubTree := [], leafHash := lh, nonLeafHash := nl,
          emptyLeafHash := e,
          levelsUpHashOfEmptyLeaves :=
            (List.range (max (shiftCount (n - l.length)) 1)).map (emptyChainVal nl e),
          treeHeight := logBaseTwo n + 1, noOfNonEmptyLeaves := l.length,
          parentHashCount := shiftCount (n - l.length) - 1 }), by dsimp only; rfl, ?_⟩
      simp only [List.length_map]
      have := List.length_pos.mpr hne
      omega)
  dsimp only at hshape
  exact ⟨by rw [hshape.1, hth], hshape.2⟩

example : (4 &&& 3 : Nat) = 0 := by decide
example : isPowerOfTwo 8 = true := by decide
example : isPowerOfTwo 31 = false := by decide
example : shiftCount 7 = 3 := by decide
example : logBaseTwo 8 = 3 := by decide
example : RootHash s0 = some [0] := rfl
example : GetMerkelProof s0 5 = some [] := rfl
example : Generate s0 [[5], [6]] 2 = some (none, exT1) := rfl
example : Generate exT1 [[5], [6]] 2 = some (none, exT2) := rfl
example : Generate s0 [[5]] 4 = some (none, exTree4) := rfl
example : Generate s0 [[5]] 8 = some (none, exTree8) := rfl
example : Generate s0 [] 2 = some (none, exTreeEmpty) := rfl
example : GetMerkelProof exTree4 0 = none := rfl
example : GetMerkelProof exTree8 0 = none := rfl
example : GetMerkelProof exT1 5 = none := rfl
example : RootHash exTreeEmpty = some [1, 0, 0] := rfl

/-- C1: evaluation of the code at a failing input for the proof round-trip
law.  `Generate([[5]], 8)` succeeds, but `GetMerkelProof(0)` — a valid leaf
index — panics (`proofNodeAt` reads `levelsUpHashOfEmptyLeaves[level+1]`
= index 4 of a chain of length 3), so no proof exists whose fold could
reproduce `RootHash()`. -/
theorem claimC1_roundtrip_failure :
    Generate s0 [[5]] 8 = some (none, exTree8) ∧ GetMerkelProof exTree8 0 = none :=
  ⟨rfl, rfl⟩

/-- C2: when `Generate` derives level `k` (`1 ≤ k ≤ treeHeight - 1`) from
level `k-1` of length `n ≥ 1`, `buildInternalOneLevelNodes (treeHeight - k)`
appends a new level holding `parentHash(below[2i], below[2i+1])` for every
`i` in `0..n/2`, followed — when `n` is odd — by
`parentHash(below[n-1], EmptyChain[k-1])`; the new level has length
`⌈n/2⌉ = (n+1)/2`. -/
theorem claimC2_one_level (s : SMT) (k : Nat) (below : List Hash) (ec : Hash)
    (hk1 : 1 ≤ k) (hk2 : k ≤ s.treeHeight - 1)
    (hbelow : s.nodesWithoutEmptyLeavesSubTree[k - 1]? = some below)
    (hn : 1 ≤ below.length)
    (hec : below.length % 2 = 1 → s.levelsUpHashOfEmptyLeaves[k - 1]? = some ec) :
    ∃ t lv, buildInternalOneLevelNodes s (s.treeHeight - k) = some t ∧
      t.nodesWithoutEmptyLeavesSubTree = s.nodesWithoutEmptyLeavesSubTree ++ [lv] ∧
      lv.length = (below.length + 1) / 2 ∧
      (∀ i a b, below[2 * i]? = some a → below[2 * i + 1]? = some b →
        lv[i]? = some ((parentHash s a b).1)) ∧
      (below.length % 2 = 1 →
        ∀ lastReal, below[below.length - 1]? = some lastReal →
          lv[below.length / 2]? = some ((parentHash s lastReal ec).1)) := by
  have hidx : s.treeHeight - 1 - (s.treeHeight - k) = k - 1 := by omega
  obtain ⟨t, lv, h1, h2, h3, h4, h5⟩ := buildOneLevel_forward s (s.treeHeight - k) below ec
    (by rw [hidx]; exact hbelow) (by rw [hidx]; exact hec)
  exact ⟨t, lv, h1, h2, h3, h4, h5⟩

/-- Witness for C2 at a concrete three-node level. -/
theorem claimC2_witness :
    (1 ≤ 1 ∧ 1 ≤ sW.treeHeight - 1 ∧
      sW.nodesWithoutEmptyLeavesSubTree[0]? = some [[5], [6], [7]] ∧
      1 ≤ ([[5], [6], [7]] : List Hash).length) ∧
    (∃ t lv, buildInternalOneLevelNodes sW (sW.treeHeight - 1) = some t ∧
      t.nodesWithoutEmptyLeavesSubTree = sW.nodesWithoutEmptyLeavesSubTree ++ [lv] ∧
      lv.length = (([[5], [6], [7]] : List Hash).length + 1) / 2 ∧
      (∀ i a b, ([[5], [6], [7]] : List Hash)[2 * i]? = some a →
        ([[5], [6], [7]] : List Hash)[2 * i + 1]? = some b →
        lv[i]? = some ((parentHash sW a b).1)) ∧
      (([[5], [6], [7]] : List Hash).length % 2 = 1 →
        ∀ lastReal, ([[5], [6], [7]] : List Hash)[([[5], [6], [7]] : List Hash).length - 1]? =
            some lastReal →
          lv[([[5], [6], [7]] : List Hash).length / 2]? =
            some ((parentHash sW lastReal [0]).1))) :=
  ⟨⟨by decide, by decide, rfl, by decide⟩,
   claimC2_one_level sW 1 [[5], [6], [7]] [0] (by decide) (by decide) rfl (by decide)
     (fun _ => rfl)⟩

/-- C3: evaluation of the code at a failing input for the sibling rule.
After `Generate([[5]], 4)` the empty chain has length 2, and
`GetMerkelProof(0)` panics because `proofNodeAt` reads the empty chain at
`level + 1 = 3` (the builder uses `treeHeight - 1 - level` for the same
sibling) instead of returning `EmptyChain[0]`. -/
theorem claimC3_proof_node_failure :
    Generate s0 [[5]] 4 = some (none, exTree4) ∧
    exTree4.levelsUpHashOfEmptyLeaves.length = 2 ∧
    GetMerkelProof exTree4 0 = none :=
  ⟨rfl, rfl, rfl⟩

/-- C4: for every `k ≥ 1`, `Generate` with zero real leaves and
`totalSize = 2^k` succeeds, invokes `parentHash` exactly `k` times (so
`2^20` costs exactly 20 hash operations), and `RootHash()` then equals
`EmptyChain[k]`. -/
theorem claimC4_empty_tree (k : Nat) (hk : 1 ≤ k) (lh : Option (Bytes → Hash))
    (nl : Bytes → Hash) (e : Hash) :
    ∃ t, Generate (newSMT lh nl e) [] (2 ^ k) = some (none, t) ∧
      t.parentHashCount = k ∧
      RootHash t = some (emptyChainVal nl e k) := by
  refine ⟨_, generate_empty_eq lh nl e k, rfl, ?_⟩
  unfold RootHash
  rw [if_pos rfl]
  dsimp only
  rw [List.length_map, List.length_range, show k + 1 - 1 = k by omega,
    List.getElem?_map, List.getElem?_range (by omega : k < k + 1)]
  rfl

/-- Witness for C4 at `k = 1` over the concrete backends. -/
theorem claimC4_witness :
    1 ≤ 1 ∧ ∃ t, Generate (newSMT (some f0) nl0 [0]) [] (2 ^ 1) = some (none, t) ∧
      t.parentHashCount = 1 ∧ RootHash t = some (emptyChainVal nl0 [0] 1) :=
  ⟨by decide, claimC4_empty_tree 1 (by decide) (some f0) nl0 [0]⟩

/-- C5 counterexample: `RootHash` does not fail with `NotFilled` on a tree
that never completed `Generate` — it returns a digest (the configured
empty-leaf digest) on a freshly constructed tree. -/
theorem claimC5_counterexample :
    RootHash (newSMT (some f0) nl0 [9]) = some [9] := rfl

/-- C5 as amended: `RootHash` never fails.  On a fresh tree it returns the
last (only) entry of the empty chain, i.e. the empty-leaf digest; after a
successful `Generate` it returns `EmptyChain[treeHeight-1]` when the count
of real leaves is zero, and otherwise the single digest at the top level. -/
theorem claimC5_amended (lh : Option (Bytes → Hash)) (nl : Bytes → Hash) (e : Hash)
    (leaves : List Bytes) (totalSize : Nat) (t : SMT) :
    RootHash (newSMT lh nl e) = some e ∧
    (Generate (newSMT lh nl e) leaves totalSize = some (none, t) →
      (leaves = [] → RootHash t = some (emptyChainVal nl e (t.treeHeight - 1))) ∧
      (leaves ≠ [] → ∃ top d,
        t.nodesWithoutEmptyLeavesSubTree[t.treeHeight - 1]? = some top ∧
        top[0]? = some d ∧ RootHash t = some d)) := by
  refine ⟨rfl, fun hgen => ⟨?_, ?_⟩⟩
  · intro hempty
    subst hempty
    obtain ⟨hpow, _, _, _, _, hth, hno, hch, _⟩ :=
      generate_fresh_core lh nl e [] totalSize t hgen
    have hn0 : totalSize ≠ 0 := isPowerOfTwo_ne_zero _ hpow
    have hsc : 1 ≤ shiftCount totalSize := shiftCount_pos _ hn0
    have hlog : logBaseTwo totalSize = shiftCount totalSize - 1 := by
      rw [logBaseTwo, if_neg hn0]
    unfold RootHash
    rw [if_pos (by simp [hno]), hch]
    simp only [List.length_map, List.length_range, List.length_nil, Nat.sub_zero]
    have hidx : max (shiftCount totalSize) 1 - 1 < max (shiftCount totalSize) 1 := by omega
    rw [List.getElem?_map, List.getElem?_range hidx]
    simp only [Option.map_some']
    congr 2
    rw [hth]
    omega
  · intro hne
    obtain ⟨hlen2, top, hlast, htoplen⟩ :=
      generate_fresh_top lh nl e leaves totalSize t hgen hne
    have hno := (generate_fresh_core lh nl e leaves totalSize t hgen).2.2.2.2.2.2.1
    rw [List.getLast?_eq_getElem?, hlen2] at hlast
    refine ⟨top, top[0], hlast, List.getElem?_eq_getElem htoplen, ?_⟩
    unfold RootHash
    rw [if_neg (by
      rw [hno]
      intro hc
      exact hne (List.length_eq_zero.mp hc))]
    rw [hlast]
    simp only [Option.some_bind]
    exact List.getElem?_eq_getElem htoplen

/-- Witness for C5 at concrete inputs: the fresh-tree case, the zero-leaf
case (`totalSize = 2`) and the real-leaf case (`totalSize = 2`, two leaves). -/
theorem claimC5_witness :
    (RootHash (newSMT (some f0) nl0 [0]) = some [0]) ∧
    (RootHash exTreeEmpty = some (emptyChainVal nl0 [0] (exTreeEmpty.treeHeight - 1))) ∧
    (∃ top d, exT1.nodesWithoutEmptyLeavesSubTree[exT1.treeHeight - 1]? = some top ∧
      top[0]? = some d ∧ RootHash exT1 = some d) :=
  ⟨(claimC5_amended (some f0) nl0 [0] [] 2 exTreeEmpty).1,
   ((claimC5_amended (some f0) nl0 [0] [] 2 exTreeEmpty).2 rfl).1 rfl,
   ((claimC5_amended (some f0) nl0 [0] [[5], [6]] 2 exT1).2 rfl).2 (by decide)⟩

/-- C6: `Generate` checks its preconditions in order, each yielding its own
distinct error, and in both failure cases the receiver state is returned
unchanged: a non-power-of-two `totalSize` yields `InvalidSize`; otherwise
more leaves than `totalSize` yields `LeafOverflow`. -/
theorem claimC6_preconditions (s : SMT) (leaves : List Bytes) (totalSize : Nat) :
    (isPowerOfTwo totalSize = false →
      Generate s leaves totalSize = some (some GenError.InvalidSize, s)) ∧
    (isPowerOfTwo totalSize = true → totalSize < leaves.length →
      Generate s leaves totalSize = some (some GenError.LeafOverflow, s)) ∧
    GenError.InvalidSize ≠ GenError.LeafOverflow := by
  refine ⟨?_, ?_, by decide⟩
  · intro h
    unfold Generate
    rw [if_pos (by simp [h])]
  · intro h1 h2
    unfold Generate
    rw [if_neg (by simp [h1]), if_pos h2]

/-- Witness for C6: `totalSize = 31` yields `InvalidSize`; nine leaves with
`totalSize = 8` yield `LeafOverflow`; neither call changes the state. -/
theorem claimC6_witness :
    (isPowerOfTwo 31 = false ∧
      Generate s0 [] 31 = some (some GenError.InvalidSize, s0)) ∧
    (isPowerOfTwo 8 = true ∧ (8 : Nat) < 9 ∧
      Generate s0 [[1], [2], [3], [4], [5], [6], [7], [8], [9]] 8 =
        some (some GenError.LeafOverflow, s0)) :=
  ⟨⟨by decide, (claimC6_preconditions s0 [] 31).1 (by decide)⟩,
   ⟨by decide, by decide,
    (claimC6_preconditions s0 [[1], [2], [3], [4], [5], [6], [7], [8], [9]] 8).2.1
      (by decide) (by decide)⟩⟩

/-- C7 counterexample: `GetMerkelProof` does not fail with `NotFilled` on a
tree that never completed `Generate` — it returns the empty proof sequence. -/
theorem claimC7_counterexample :
    GetMerkelProof (newSMT (some f0) nl0 [9]) 0 = some [] := rfl

/-- C7 as amended: `GetMerkelProof` performs no precondition checks and has
no error result.  On a tree that has not completed a `Generate`
(`treeHeight = 0`) it returns the empty sequence for every index, and for
an out-of-range `leafNo` it proceeds with the index walk, which can read
out of range and panic rather than report `IndexOutOfRange`. -/
theorem claimC7_amended :
    (∀ (lh : Option (Bytes → Hash)) (nl : Bytes → Hash) (e : Hash) (leafNo : Nat),
      GetMerkelProof (newSMT lh nl e) leafNo = some []) ∧
    (Generate s0 [[5], [6]] 2 = some (none, exT1) ∧ GetMerkelProof exT1 5 = none) :=
  ⟨fun _ _ _ _ => rfl, rfl, rfl⟩

/-- Witness for C7 at a concrete fresh tree and index. -/
theorem claimC7_witness :
    GetMerkelProof (newSMT (some f0) nl0 [3]) 7 = some [] :=
  claimC7_amended.1 (some f0) nl0 [3] 7

/-- C8 counterexample: `Filled` is not terminal — a second successful
`Generate` on an already filled tree mutates the built levels (it appends a
fresh leaf level and internal level). -/
theorem claimC8_counterexample :
    Generate s0 [[5], [6]] 2 = some (none, exT1) ∧
    Generate exT1 [[5], [6]] 2 = some (none, exT2) ∧
    exT2.nodesWithoutEmptyLeavesSubTree ≠ exT1.nodesWithoutEmptyLeavesSubTree :=
  ⟨rfl, rfl, by decide⟩

/-- C8 as amended: a failed `Generate` (precondition violation) returns the
receiver unchanged, but a further `Generate` on a filled tree can succeed
and appends new levels onto the stored level array, so the built levels are
not immutable. -/
theorem claimC8_amended (s : SMT) (leaves : List Bytes) (totalSize : Nat)
    (e : GenError) (t : SMT) :
    (Generate s leaves totalSize = some (some e, t) → t = s) ∧
    (Generate exT1 [[5], [6]] 2 = some (none, exT2) ∧
      exT2.nodesWithoutEmptyLeavesSubTree =
        exT1.nodesWithoutEmptyLeavesSubTree ++ [[[0, 5], [0, 6]], [[1, 0, 5, 0, 6]]]) := by
  refine ⟨?_, rfl, rfl⟩
  intro h
  unfold Generate at h
  by_cases h1 : isPowerOfTwo totalSize = true
  · rw [if_neg (by simp [h1])] at h
    by_cases h2 : totalSize < leaves.length
    · rw [if_pos h2] at h
      injection h with h3
      exact ((Prod.mk.injEq _ _ _ _).mp h3).2.symm
    · rw [if_neg h2] at h
      have h' : (buildAllLevelNodes
          (computeEmptyLeavesSubTreeHash
            { s with
              treeHeight := logBaseTwo totalSize + 1
              noOfNonEmptyLeaves := leaves.length }
            (shiftCount (totalSize - leaves.length))) leaves).map (fun u => (none, u)) =
          some (some e, t) := h
      cases hb : buildAllLevelNodes
          (computeEmptyLeavesSubTreeHash
            { s with
              treeHeight := logBaseTwo totalSize + 1
              noOfNonEmptyLeaves := leaves.length }
            (shiftCount (totalSize - leaves.length))) leaves with
      | none => rw [hb] at h'; exact absurd h' (by simp)
      | some t' =>
        rw [hb] at h'
        simp only [Option.map_some'] at h'
        injection h' with h3
        exact absurd ((Prod.mk.injEq _ _ _ _).mp h3).1 (by simp)
  · rw [if_pos (by simp [h1])] at h
    injection h with h3
    exact ((Prod.mk.injEq _ _ _ _).mp h3).2.symm

/-- Witness for C8 at a concrete failing call (`totalSize = 3`). -/
theorem claimC8_witness :
    Generate s0 [] 3 = some (some GenError.InvalidSize, s0) ∧ s0 = s0 :=
  ⟨rfl, (claimC8_amended s0 [] 3 GenError.InvalidSize s0).1 rfl⟩

/-- C9: after a successful `Generate` on a fresh two-backend tree the empty
chain satisfies `chain[0] = leafHash(empty block)` and
`chain[i] = parentHash(chain[i-1], chain[i-1])`, and its length is exactly
`maxEmptyHeight = shiftCount(totalSize - len(leaves))` (at least `chain[0]`
is present when the empty count is zero). -/
theorem claimC9_empty_chain (f nl : Bytes → Hash) (leaves : List Bytes)
    (totalSize : Nat) (t : SMT)
    (h : Generate (NewSMTWithTwoHashFuncs f nl) leaves totalSize = some (none, t)) :
    t.levelsUpHashOfEmptyLeaves.length =
      max (shiftCount (totalSize - leaves.length)) 1 ∧
    t.levelsUpHashOfEmptyLeaves[0]? = some (leafHashFunc t []) ∧
    (∀ i, i + 1 < t.levelsUpHashOfEmptyLeaves.length →
      t.levelsUpHashOfEmptyLeaves[i + 1]? =
        (t.levelsUpHashOfEmptyLeaves[i]?).map fun c => (parentHash t c c).1) := by
  obtain ⟨hpow, hlen, hlf, hnl, helh, hth, hno, hch, hnlen⟩ :=
    generate_fresh_core (some f) nl (f []) leaves totalSize t h
  refine ⟨by rw [hch]; simp, ?_, ?_⟩
  · rw [hch, List.getElem?_map, List.getElem?_range (by omega)]
    simp only [Option.map_some']
    unfold leafHashFunc
    rw [hlf]
    rfl
  · intro i hi
    rw [hch] at hi ⊢
    simp only [List.length_map, List.length_range] at hi
    rw [List.getElem?_map, List.getElem?_map, List.getElem?_range (by omega),
      List.getElem?_range (by omega)]
    simp only [Option.map_some']
    rw [parentHash_fst, hnl]
    rfl

/-- Witness for C9 on the concrete tree generated from one leaf with
`totalSize = 4`. -/
theorem claimC9_witness :
    exTree4.levelsUpHashOfEmptyLeaves.length = max (shiftCount (4 - 1)) 1 ∧
    exTree4.levelsUpHashOfEmptyLeaves[0]? = some (leafHashFunc exTree4 []) ∧
    (∀ i, i + 1 < exTree4.levelsUpHashOfEmptyLeaves.length →
      exTree4.levelsUpHashOfEmptyLeaves[i + 1]? =
        (exTree4.levelsUpHashOfEmptyLeaves[i]?).map fun c => (parentHash exTree4 c c).1) := by
  have h := claimC9_empty_chain f0 nl0 [[5]] 4 exTree4 rfl
  simpa using h

/-- C10: `isEmptyLeaf` depends on the configuration — with a leaf backend
configured a block is empty exactly when it is the zero-length byte string,
and in pass-through mode (no leaf backend) exactly when it is byte-equal to
the configured empty-leaf digest. -/
theorem claimC10_isEmptyLeaf (f nl : Bytes → Hash) (e : Hash) (item : Bytes) :
    (isEmptyLeaf (NewSMTWithTwoHashFuncs f nl) item = true ↔ item = []) ∧
    (isEmptyLeaf (NewSMTWithNonLeafHashAndEmptyLeafHashValue e nl) item = true ↔
      item = e) := by
  constructor
  · show (item == ([] : Bytes)) = true ↔ item = []
    exact beq_iff_eq
  · show (item == e) = true ↔ item = e
    exact beq_iff_eq

/-- Witness for C10 at concrete blocks. -/
theorem claimC10_witness :
    isEmptyLeaf (NewSMTWithTwoHashFuncs f0 nl0) [] = true ∧
    isEmptyLeaf (NewSMTWithNonLeafHashAndEmptyLeafHashValue [7] nl0) [7] = true :=
  ⟨(claimC10_isEmptyLeaf f0 nl0 [7] []).1.mpr rfl,
   (claimC10_isEmptyLeaf f0 nl0 [7] [7]).2.mpr rfl⟩

end GoSMT
